import Mathlib

/-!
Verification of the flux-tester end-to-end test harness.

This file gives a shallow embedding of the harness's reusable primitives —
the command runner (`envExec`, `strOrDie`, `ignoreErr`), the polling loops
(`servicesAPICall`, `httpgetNoErr`, the ticker-based `waitForSync`, and the
generic `until` engine), and the tool-capability wrappers (`helm`, `kubectl`,
`minikube`) — and proves the specified properties about them.

Go conventions are modelled as follows: a `*testing.T` handle is an
`Option TestHandle`; a Go `error` value is an `Option String` (its message,
`none` for nil); functions that call `log.Fatal`/`t.Fatalf` return
`Except String α`, the `error` case carrying the fatal message; the outside
world (process execution, the remote git repository, the flux API) enters as
explicit oracle parameters, one observation per call or per tick.
-/

namespace FluxTester

/-- The whitespace set of Go's `unicode.IsSpace` for the Latin-1 range, as
trimmed by `strings.TrimSpace`. -/
def goSpaceChars : List Char :=
  [' ', '\t', '\n', Char.ofNat 0x0b, Char.ofNat 0x0c, '\r', Char.ofNat 0x85, Char.ofNat 0xa0]

def isGoSpace (c : Char) : Bool := goSpaceChars.contains c

/-- Go's `strings.TrimSpace`: drop leading and trailing whitespace. -/
def goTrimSpace (s : String) : String :=
  ⟨((s.data.dropWhile isGoSpace).reverse.dropWhile isGoSpace).reverse⟩

/-- The element part of Go's `fmt` `%v` rendering of a string slice:
elements separated by single spaces. -/
def goSliceElems : List String → String
  | [] => ""
  | [x] => x
  | x :: y :: xs => x ++ " " ++ goSliceElems (y :: xs)

/-- Go's `fmt` `%v` rendering of a string slice: `[elem1 elem2 ...]`. -/
def goSliceFmt (l : List String) : String := "[" ++ goSliceElems l ++ "]"

/-- Go's `fmt` `%q` rendering of a string, for strings without characters
that need escaping (the revisions, tags and version strings in play here
are plain ASCII): the string wrapped in double quotes. -/
def goQuote (s : String) : String := "\"" ++ s ++ "\""

/-- Go's `fmt` `%v` rendering of a possibly-nil `error` value. -/
def goErrFmt : Option String → String
  | none => "<nil>"
  | some e => e

/-- `s` has `t` as a (contiguous) substring. -/
def strContains (s t : String) : Prop := t.data <:+: s.data

/-- Outcome of running one external process, as seen by
`cmd.CombinedOutput()`: the combined stdout+stderr text, and the raw error
(`none` for exit status 0, `some cause` for a non-zero exit or an exceeded
context deadline). -/
structure ExecOutcome where
  output : String
  cause : Option String

/-- A `*testing.T` handle (only its presence matters to the runner). -/
structure TestHandle where
  name : String

/-- Where a runner log line went: the current test's logger (`t.Logf`) or
the process logger (`log.Printf`). -/
inductive LogSink where
  | testLogger
  | processLogger
deriving DecidableEq

/-- An observable action of the command runner, in order of occurrence. -/
inductive RunnerEvent where
  | log (sink : LogSink) (line : String)
  | exec (argv : List String)
deriving DecidableEq

/-- `envExec` (util_test.go), result part: runs `command` with `args`; on
failure wraps the raw error as
`error running <argv>: <cause>\nOutput:\n<output>`; always passes the
combined output through. `res` is the process outcome supplied by the
world. -/
def envExec (command : String) (args : List String) (res : ExecOutcome) :
    String × Option String :=
  match res.cause with
  | none => (res.output, none)
  | some c =>
      (res.output,
       some ("error running " ++ goSliceFmt (command :: args) ++ ": " ++ c
             ++ "\nOutput:\n" ++ res.output))

/-- `envExec` (util_test.go) with its side effects: before the process is
executed, the full command line is logged — to the test's logger when a
`*testing.T` was supplied, to the process logger otherwise. Returns the
event trace alongside the result. -/
def envExecWithLog (t : Option TestHandle) (env : List String) (command : String)
    (args : List String) (res : ExecOutcome) :
    List RunnerEvent × String × Option String :=
  ([RunnerEvent.log (if t.isSome then LogSink.testLogger else LogSink.processLogger)
      ("running " ++ goSliceFmt (command :: args)),
    RunnerEvent.exec (command :: args)],
   envExec command args res)

/-- `strOrDie` (util_test.go): `log.Fatal` on a non-nil error — modelled as
`Except.error` — otherwise the string itself. -/
def strOrDie (s : String) (err : Option String) : Except String String :=
  match err with
  | some e => Except.error e
  | none => Except.ok s

/-- `ignoreErr` (util_test.go): on a non-nil error returns the empty string,
otherwise the string itself. The error never escapes. -/
def ignoreErr (s : String) (err : Option String) : String :=
  match err with
  | some _ => ""
  | none => s

/-- The timeout error text built by the inlined polling loops:
`fmt.Errorf("timed out, last error: %v", err)`. -/
def timedOutMsg (last : Option String) : String :=
  "timed out, last error: " ++ goErrFmt last

/-- Predicate-outcome discriminator for the polling loops. -/
def isErr {α : Type} : Except String α → Bool
  | Except.error _ => true
  | Except.ok _ => false

/-- The `select { case <-ticker.C: …; case <-ctx.Done(): … }` loop body
shared verbatim by `servicesAPICall` and `httpgetNoErr` (util_test.go):
`evals` lists the predicate outcomes at the successive one-second ticks that
fire strictly before the context deadline; a success returns immediately at
its tick; when the ticks are exhausted `ctx.Done()` fires and the loop
returns the timeout error wrapping the last predicate error observed
(`last`, initially the nil error of the `var err error` declaration). -/
def pollLoop {α : Type} : List (Except String α) → Option String → Except String α
  | [], last => Except.error (timedOutMsg last)
  | Except.ok a :: _, _ => Except.ok a
  | Except.error e :: rest, _ => pollLoop rest (some e)

/-- One controller status returned by the flux agent's `ListServices`
(only the fields the harness reads: id, and container name ↦ current image). -/
structure ControllerStatus where
  id : String
  containers : List (String × String)
deriving DecidableEq

/-- `servicesAPICall` (util_test.go): polls `api.ListServices` once per
one-second tick until it succeeds or `ctx.Done()` fires; `apiResults` is the
outcome of each successive `ListServices` call. -/
def servicesAPICall (apiResults : List (Except String (List ControllerStatus))) :
    Except String (List ControllerStatus) :=
  pollLoop apiResults none

/-- `httpgetNoErr` (util_test.go): polls `httpget` once per one-second tick
until it succeeds or `ctx.Done()` fires; `getResults` is the outcome of each
successive `httpget` call. -/
def httpgetNoErr (getResults : List (Except String String)) : Except String String :=
  pollLoop getResults none

/-- Modelled from the spec: the generic polling engine `until(ctx, predicate)`
(§4.3); its defining source file is not part of this corpus — only its
callers are. Per the spec it evaluates the predicate once per tick on a fixed
cadence, stops with nil on the first success, and on deadline returns a
timeout-classified error wrapping the last predicate error observed, in the
same format as its inlined equivalents in util_test.go. `none` is a nil
(success) predicate result. -/
def untilLoop : List (Option String) → Option String → Option String
  | [], last => some (timedOutMsg last)
  | none :: _, _ => none
  | some e :: rest, _ => untilLoop rest (some e)

/-- Modelled from the spec: `until` run from its initial state (no predicate
error observed yet). -/
def untilRun (preds : List (Option String)) : Option String :=
  untilLoop preds none

/-- Timing view of the ticker/deadline select loop: the instants (measured
from loop entry, in the same unit as `interval`) at which the predicate gets
evaluated. From current instant `t` the ticker next fires at `t + interval`;
if the context deadline `deadline` is not strictly after that instant,
`ctx.Done()` wins and the loop stops; otherwise evaluation number `k` runs,
and the loop stops after it when it succeeds (`succ k = true`). `fuel` bounds
the recursion; `deadline` steps always suffice once `0 < interval`. -/
def pollScheduleAux (interval deadline : Nat) (succ : Nat → Bool) :
    Nat → Nat → Nat → List Nat
  | 0, _, _ => []
  | fuel + 1, t, k =>
    if t + interval < deadline then
      if succ k then [t + interval]
      else (t + interval) :: pollScheduleAux interval deadline succ fuel (t + interval) (k + 1)
    else []

/-- The evaluation instants of one whole polling-loop invocation, started at
instant 0 with evaluations numbered from 0. -/
def pollSchedule (interval deadline : Nat) (succ : Nat → Bool) : List Nat :=
  pollScheduleAux interval deadline succ deadline 0 0

/-- The sync marker tag maintained by flux (`fluxSyncTag`, flux_test.go). -/
def fluxSyncTag : String := "flux-sync"

/-- The marker revision the ticker-based `waitForSync` observes at tick `k`:
`gitIgnoreErr(ctx, "rev-list", "-n", "1", fluxSyncTag)`, evaluated after that
tick's `git fetch --tags`. `revlistAt k` is the post-fetch outcome (output
and error) of that `rev-list` call; a not-yet-existing tag is an error, so
the observation degrades to `""`. -/
def syncRevAt (revlistAt : Nat → String × Option String) (k : Nat) : String :=
  ignoreErr (revlistAt k).1 (revlistAt k).2

/-- Loop body of the ticker-based `waitForSync` (flux_test.go lines 349–365;
the same loop appears in part_004 lines 214–233): at each one-second tick
(numbered from `k`) fetch tags, observe the marker revision, and return
success when it equals `headRev`; when the ticks before the context deadline
(`fuel` of them) are exhausted, `ctx.Done()` fires and
`t.Fatalf("Failed to sync to revision %s", headRev)` reports failure. -/
def waitForSyncAux (headRev : String) (revlistAt : Nat → String × Option String) :
    Nat → Nat → Except String Bool
  | 0, _ => Except.error ("Failed to sync to revision " ++ headRev)
  | fuel + 1, k =>
    if syncRevAt revlistAt k = headRev then Except.ok true
    else waitForSyncAux headRev revlistAt fuel (k + 1)

/-- The ticker-based `waitForSync` (flux_test.go lines 349–365): `headRev` is
the revision the target ref resolved to on entry
(`gitOrDie(ctx, "rev-list", "-n", "1", targetRevSource)`), `ticks` the number
of one-second ticks that fire before the context deadline; ticks are numbered
from 1. `Except.error` models `t.Fatalf`. -/
def waitForSync (headRev : String) (revlistAt : Nat → String × Option String)
    (ticks : Nat) : Except String Bool :=
  waitForSyncAux headRev revlistAt ticks 1

/-- The convergence predicate of the `until`-based `waitForSync`
(flux_test.go lines 653–668): after fetching, compare the marker revision
with the target revision, reporting
`sync tag %q points at %q instead of target %s` while they differ.
`targetRevAt k` and `markerRevAt k` are the post-fetch results of the two
`revlist` calls at tick `k`. -/
def waitForSyncPred (targetRevAt markerRevAt : Nat → String) (k : Nat) : Option String :=
  if markerRevAt k = targetRevAt k then none
  else some ("sync tag " ++ goQuote fluxSyncTag ++ " points at "
             ++ goQuote (markerRevAt k) ++ " instead of target " ++ targetRevAt k)

/-- The `until`-based `waitForSync` (flux_test.go lines 653–668):
`h.must(until(ctx, predicate))` with the predicate above, evaluated once per
tick for the `ticks` ticks that fire before the deadline (numbered from 1).
The returned value is the error `until` hands to `h.must` (`none` on
success). -/
def waitForSyncUntil (targetRevAt markerRevAt : Nat → String) (ticks : Nat) :
    Option String :=
  untilRun ((List.range ticks).map (fun j => waitForSyncPred targetRevAt markerRevAt (j + 1)))

/-- The process-wide `setup` value (flux_test.go lines 50–57): minikube
profile, suite working directory, resolved cluster address. -/
structure Setup where
  profile : String
  workdir : String
  clusterIP : String

/-- `helmSubCmd` (flux_test.go lines 180–185): the full helm command line. -/
def Setup.helmSubCmd (s : Setup) (subcmd : String) (args : List String) : List String :=
  ["helm", "--kube-context", s.profile, "--home", s.workdir ++ "/helm", subcmd] ++ args

/-- `helm` (flux_test.go lines 187–190): build the command line and run it
through `envExec` as `envExec(ctx, nil, nil, allargs[0], allargs[1:]...)`.
`exec` maps a command line to its process outcome. -/
def Setup.helm (s : Setup) (exec : List String → ExecOutcome) (subcmd : String)
    (args : List String) : String × Option String :=
  let allargs := s.helmSubCmd subcmd args
  envExec (allargs.headD "") allargs.tail (exec allargs)

/-- `helmOrDie` (flux_test.go lines 192–194). -/
def Setup.helmOrDie (s : Setup) (exec : List String → ExecOutcome) (subcmd : String)
    (args : List String) : Except String String :=
  let r := s.helm exec subcmd args
  strOrDie r.1 r.2

/-- `helmIgnoreErr` (flux_test.go lines 196–198): a plain string comes back
whatever the command did. -/
def Setup.helmIgnoreErr (s : Setup) (exec : List String → ExecOutcome) (subcmd : String)
    (args : List String) : String :=
  let r := s.helm exec subcmd args
  ignoreErr r.1 r.2

/-- `kubectlSubCmd` (flux_test.go lines 158–160). -/
def Setup.kubectlSubCmd (s : Setup) (ns : String) (subcmd : String)
    (args : List String) : List String :=
  ["--context", s.profile, "--namespace", ns, subcmd] ++ args

/-- `kubectl` (flux_test.go lines 162–165): `envExec(ctx, t, nil, "kubectl",
allargs...)`. -/
def Setup.kubectl (s : Setup) (exec : List String → ExecOutcome) (ns : String)
    (subcmd : String) (args : List String) : String × Option String :=
  let allargs := s.kubectlSubCmd ns subcmd args
  envExec "kubectl" allargs (exec ("kubectl" :: allargs))

/-- `kubectlIgnoreErrs` (flux_test.go lines 171–173). -/
def Setup.kubectlIgnoreErrs (s : Setup) (exec : List String → ExecOutcome) (ns : String)
    (subcmd : String) (args : List String) : String :=
  let r := s.kubectl exec ns subcmd args
  ignoreErr r.1 r.2

/-- `minikubeTool` (minikube.go lines 16–18). -/
structure minikubeTool where
  profile : String

/-- `common` (minikube.go lines 37–39). -/
def minikubeTool.common (mt : minikubeTool) : List String :=
  ["minikube", "--profile", mt.profile]

/-- `versionCmd` (minikube.go lines 41–43). -/
def minikubeTool.versionCmd (mt : minikubeTool) : List String :=
  mt.common ++ ["version"]

/-- `ipCmd` (minikube.go lines 53–55). -/
def minikubeTool.ipCmd (mt : minikubeTool) : List String :=
  mt.common ++ ["ip"]

/-- `minikube` (minikube.go lines 26–29); the logger handle is immaterial to
the properties proved here and is omitted. -/
structure minikube where
  mt : minikubeTool

/-- Modelled from the spec: the Command Runner's `mustSucceed` variant
(§4.1), reached in minikube.go as `m.cli().must(ctx, argv...)`; the `clicmd`
source file is not part of this corpus. Per the spec it runs the command,
maps any error into an unrecoverable failure (`Except.error`), and otherwise
yields the combined output; the event trace records that the command was
executed (afresh, once per call). -/
def cliMust (exec : List String → ExecOutcome) (argv : List String) :
    Except String String × List RunnerEvent :=
  let r := envExec (argv.headD "") argv.tail (exec argv)
  (strOrDie r.1 r.2, [RunnerEvent.exec argv])

/-- `version` (minikube.go lines 84–86). -/
def minikube.version (m : minikube) (exec : List String → ExecOutcome) :
    Except String String :=
  (cliMust exec m.mt.versionCmd).1

/-- `nodeIP` (minikube.go lines 109–111): run `minikube --profile <p> ip`
and return the whitespace-trimmed output. No state is consulted or stored:
each call goes to `exec` afresh. -/
def minikube.nodeIP (m : minikube) (exec : List String → ExecOutcome) :
    Except String String × List RunnerEvent :=
  let r := cliMust exec m.mt.ipCmd
  (r.1.map goTrimSpace, r.2)

/-- Two consecutive `nodeIP` calls against unchanged external state (the
same `exec` oracle), with their combined event trace. -/
def minikube.nodeIPTwice (m : minikube) (exec : List String → ExecOutcome) :
    (Except String String × Except String String) × List RunnerEvent :=
  let r1 := m.nodeIP exec
  let r2 := m.nodeIP exec
  ((r1.1, r2.1), r1.2 ++ r2.2)

/-- `minikubeVersion` (minikube.go line 11). -/
def minikubeVersion : String := "v0.28.1"

/-- `mustNewMinikube` (minikube.go lines 65–78): `newMinikubeTool` cannot
fail; the tool's `minikube version` output is trimmed and compared against
exactly `minikube version: v0.28.1`; on any other output `lg.Fatalf` aborts
the suite (modelled as `Except.error` with the formatted fatal message).
`exec` is the process oracle behind `m.version()`. -/
def mustNewMinikube (profile : String) (exec : List String → ExecOutcome) :
    Except String minikube :=
  let m : minikube := ⟨⟨profile⟩⟩
  match m.version exec with
  | Except.error e => Except.error e
  | Except.ok out =>
    let version := goTrimSpace out
    if version = "minikube version: " ++ minikubeVersion then Except.ok m
    else
      Except.error ("`minikube version` returned " ++ goQuote version
        ++ ", but these tests only support version " ++ minikubeVersion)

/-! ### Helper lemmas -/

theorem strContains_self (t : String) : strContains t t :=
  List.infix_refl _

theorem strContains_appendLeft (x : String) {s t : String} (h : strContains s t) :
    strContains (x ++ s) t := by
  obtain ⟨a, b, hab⟩ := h
  exact ⟨x.data ++ a, b, by rw [String.data_append, ← hab]; simp⟩

theorem strContains_appendRight (y : String) {s t : String} (h : strContains s t) :
    strContains (s ++ y) t := by
  obtain ⟨a, b, hab⟩ := h
  exact ⟨a, b ++ y.data, by rw [String.data_append, ← hab]; simp⟩

theorem strContains_trans {s t u : String} (h1 : strContains s t)
    (h2 : strContains t u) : strContains s u :=
  h2.trans h1

theorem pollLoop_allFail {α : Type} (e : String) :
    ∀ (evals : List (Except String α)) (last : Option String),
      evals.getLast? = some (Except.error e) → (∀ r ∈ evals, isErr r = true) →
      pollLoop evals last = Except.error ("timed out, last error: " ++ e) := by
  intro evals
  induction evals with
  | nil => intro last h _; simp at h
  | cons a tl ih =>
    intro last hlast hall
    have ha := hall a (List.mem_cons_self a tl)
    match a with
    | Except.ok v => simp [isErr] at ha
    | Except.error ea =>
      cases tl with
      | nil =>
        simp only [List.getLast?_singleton, Option.some.injEq, Except.error.injEq] at hlast
        simp [pollLoop, timedOutMsg, goErrFmt, hlast]
      | cons b tl' =>
        rw [List.getLast?_cons_cons] at hlast
        simp only [pollLoop]
        exact ih (some ea) hlast (fun r hr => hall r (List.mem_cons_of_mem _ hr))

theorem pollLoop_firstOk {α : Type} (a : α) :
    ∀ (es rest : List (Except String α)) (last : Option String),
      (∀ r ∈ es, isErr r = true) →
      pollLoop (es ++ Except.ok a :: rest) last = Except.ok a := by
  intro es
  induction es with
  | nil => intro rest last _; rfl
  | cons x xs ih =>
    intro rest last hall
    have hx := hall x (List.mem_cons_self x xs)
    match x with
    | Except.ok v => simp [isErr] at hx
    | Except.error ex =>
      simp only [List.cons_append, pollLoop]
      exact ih rest (some ex) (fun r hr => hall r (List.mem_cons_of_mem _ hr))

theorem untilLoop_allFail (e : String) :
    ∀ (preds : List (Option String)) (last : Option String),
      preds.getLast? = some (some e) → (∀ r ∈ preds, r ≠ none) →
      untilLoop preds last = some ("timed out, last error: " ++ e) := by
  intro preds
  induction preds with
  | nil => intro last h _; simp at h
  | cons a tl ih =>
    intro last hlast hall
    have ha := hall a (List.mem_cons_self a tl)
    match a with
    | none => exact absurd rfl ha
    | some ea =>
      cases tl with
      | nil =>
        simp only [List.getLast?_singleton, Option.some.injEq] at hlast
        simp [untilLoop, timedOutMsg, goErrFmt, hlast]
      | cons b tl' =>
        rw [List.getLast?_cons_cons] at hlast
        simp only [untilLoop]
        exact ih (some ea) hlast (fun r hr => hall r (List.mem_cons_of_mem _ hr))

theorem untilLoop_firstOk :
    ∀ (es rest : List (Option String)) (last : Option String),
      (∀ r ∈ es, r ≠ none) →
      untilLoop (es ++ none :: rest) last = none := by
  intro es
  induction es with
  | nil => intro rest last _; rfl
  | cons x xs ih =>
    intro rest last hall
    have hx := hall x (List.mem_cons_self x xs)
    match x with
    | none => exact absurd rfl hx
    | some ex =>
      simp only [List.cons_append, untilLoop]
      exact ih rest (some ex) (fun r hr => hall r (List.mem_cons_of_mem _ hr))

/-! ### Claim theorems -/

/-- C1: for every polling loop — the spec-modelled `until` engine and its
inlined equivalents `servicesAPICall` and `httpgetNoErr` — if every
predicate evaluation at the ticks before the deadline returns an error, the
loop returns the timeout-classified error that wraps exactly the last
predicate error observed, its text unchanged inside the wrapper; if some
evaluation succeeds within the deadline (all evaluations before it having
errored), the loop returns that successful result, with nil error, at that
tick. -/
theorem polling_loops_wrap_last_error
    (api1 api2 rest1 : List (Except String (List ControllerStatus)))
    (ctrls : List ControllerStatus)
    (get1 get2 rest2 : List (Except String String)) (body : String)
    (u1 u2 rest3 : List (Option String))
    (ea eg eu : String)
    (ha : api1.getLast? = some (Except.error ea)) (ha2 : ∀ r ∈ api1, isErr r = true)
    (hg : get1.getLast? = some (Except.error eg)) (hg2 : ∀ r ∈ get1, isErr r = true)
    (hu : u1.getLast? = some (some eu)) (hu2 : ∀ r ∈ u1, r ≠ none)
    (ha3 : ∀ r ∈ api2, isErr r = true) (hg3 : ∀ r ∈ get2, isErr r = true)
    (hu3 : ∀ r ∈ u2, r ≠ none) :
    servicesAPICall api1 = Except.error ("timed out, last error: " ++ ea) ∧
    httpgetNoErr get1 = Except.error ("timed out, last error: " ++ eg) ∧
    untilRun u1 = some ("timed out, last error: " ++ eu) ∧
    servicesAPICall (api2 ++ Except.ok ctrls :: rest1) = Except.ok ctrls ∧
    httpgetNoErr (get2 ++ Except.ok body :: rest2) = Except.ok body ∧
    untilRun (u2 ++ none :: rest3) = none :=
  ⟨pollLoop_allFail ea api1 none ha ha2,
   pollLoop_allFail eg get1 none hg hg2,
   untilLoop_allFail eu u1 none hu hu2,
   pollLoop_firstOk ctrls api2 rest1 none ha3,
   pollLoop_firstOk body get2 rest2 none hg3,
   untilLoop_firstOk u2 rest3 none hu3⟩

/-- C1 witness: the three loops at concrete inputs — two failing ticks then
deadline (the returned error wraps the second, last error), and one failing
tick followed by a success (returned at that tick). -/
theorem polling_loops_wrap_last_error_witness :
    servicesAPICall [Except.error "api down", Except.error "api still down"] =
      Except.error ("timed out, last error: " ++ "api still down") ∧
    httpgetNoErr [Except.error "conn refused", Except.error "http 503"] =
      Except.error ("timed out, last error: " ++ "http 503") ∧
    untilRun [some "not yet", some "still not"] =
      some ("timed out, last error: " ++ "still not") ∧
    servicesAPICall [Except.error "api down", Except.ok [], Except.error "later"] =
      Except.ok [] ∧
    httpgetNoErr [Except.error "conn refused", Except.ok "Ahoy", Except.error "later"] =
      Except.ok "Ahoy" ∧
    untilRun [some "not yet", none, some "later"] = none :=
  polling_loops_wrap_last_error
    [Except.error "api down", Except.error "api still down"]
    [Except.error "api down"] [Except.error "later"] []
    [Except.error "conn refused", Except.error "http 503"]
    [Except.error "conn refused"] [Except.error "later"] "Ahoy"
    [some "not yet", some "still not"] [some "not yet"] [some "later"]
    "api still down" "http 503" "still not"
    rfl (by decide) rfl (by decide) rfl (by decide)
    (by decide) (by decide) (by decide)

theorem pollScheduleAux_getElem (interval deadline : Nat) (succ : Nat → Bool) :
    ∀ (fuel t k i : Nat), i < (pollScheduleAux interval deadline succ fuel t k).length →
      (pollScheduleAux interval deadline succ fuel t k)[i]? = some (t + (i + 1) * interval) := by
  intro fuel
  induction fuel with
  | zero => intro t k i h; simp [pollScheduleAux] at h
  | succ fuel ih =>
    intro t k i h
    by_cases hd : t + interval < deadline
    · by_cases hs : succ k = true
      · have hl : pollScheduleAux interval deadline succ (fuel + 1) t k = [t + interval] := by
          simp [pollScheduleAux, hd, hs]
        rw [hl] at h ⊢
        match i, h with
        | 0, _ => simp
      · have hl : pollScheduleAux interval deadline succ (fuel + 1) t k =
            (t + interval) :: pollScheduleAux interval deadline succ fuel (t + interval) (k + 1) := by
          simp [pollScheduleAux, hd, hs]
        rw [hl] at h ⊢
        match i, h with
        | 0, _ => simp
        | i + 1, h =>
          rw [List.getElem?_cons_succ]
          rw [ih (t + interval) (k + 1) i (by simpa using h)]
          congr 1
          ring
    · have hl : pollScheduleAux interval deadline succ (fuel + 1) t k = [] := by
        simp [pollScheduleAux, hd]
      rw [hl] at h
      simp at h

theorem pollScheduleAux_mem (interval deadline : Nat) (succ : Nat → Bool) :
    ∀ (fuel t k x : Nat), x ∈ pollScheduleAux interval deadline succ fuel t k →
      t + interval ≤ x ∧ x < deadline := by
  intro fuel
  induction fuel with
  | zero => intro t k x hx; simp [pollScheduleAux] at hx
  | succ fuel ih =>
    intro t k x hx
    by_cases hd : t + interval < deadline
    · by_cases hs : succ k = true
      · simp [pollScheduleAux, hd, hs] at hx
        omega
      · simp only [pollScheduleAux, if_pos hd, if_neg hs, List.mem_cons] at hx
        rcases hx with hx | hx
        · omega
        · have := ih (t + interval) (k + 1) x hx
          omega
    · simp [pollScheduleAux, hd] at hx

theorem pollScheduleAux_length_iff (interval deadline : Nat) (succ : Nat → Bool) :
    ∀ (fuel t k : Nat), deadline ≤ t + fuel * interval →
      ∀ j : Nat, j < (pollScheduleAux interval deadline succ fuel t k).length ↔
        (t + (j + 1) * interval < deadline ∧ ∀ i < j, succ (k + i) = false) := by
  intro fuel
  induction fuel with
  | zero =>
    intro t k hfuel j
    simp only [pollScheduleAux, List.length_nil]
    constructor
    · omega
    · rintro ⟨h1, -⟩
      have h2 : t ≤ t + (j + 1) * interval := Nat.le_add_right t _
      omega
  | succ fuel ih =>
    intro t k hfuel j
    by_cases hd : t + interval < deadline
    · by_cases hs : succ k = true
      · have hl : pollScheduleAux interval deadline succ (fuel + 1) t k = [t + interval] := by
          simp [pollScheduleAux, hd, hs]
        rw [hl]
        simp only [List.length_singleton]
        match j with
        | 0 =>
          constructor
          · intro _
            exact ⟨by simpa using hd, fun i hi => absurd hi (by omega)⟩
          · intro _
            omega
        | j + 1 =>
          constructor
          · intro hlt
            exact absurd hlt (by omega)
          · rintro ⟨-, hall⟩
            have h0 := hall 0 (by omega)
            rw [Nat.add_zero, hs] at h0
            exact absurd h0 (by simp)
      · have hl : pollScheduleAux interval deadline succ (fuel + 1) t k =
            (t + interval) :: pollScheduleAux interval deadline succ fuel (t + interval) (k + 1) := by
          simp [pollScheduleAux, hd, hs]
        rw [hl]
        have hfuel' : deadline ≤ (t + interval) + fuel * interval := by
          have : t + (fuel + 1) * interval = (t + interval) + fuel * interval := by ring
          omega
        match j with
        | 0 =>
          simp only [List.length_cons]
          constructor
          · intro _
            exact ⟨by simpa using hd, fun i hi => absurd hi (by omega)⟩
          · intro _
            omega
        | j + 1 =>
          have hiff := ih (t + interval) (k + 1) hfuel' j
          simp only [List.length_cons]
          have hrw : (t + interval) + (j + 1) * interval = t + (j + 1 + 1) * interval := by ring
          rw [hrw] at hiff
          constructor
          · intro hlt
            have hj : j < (pollScheduleAux interval deadline succ fuel (t + interval) (k + 1)).length := by
              omega
            obtain ⟨h1, h2⟩ := hiff.mp hj
            refine ⟨h1, ?_⟩
            intro i hi
            match i with
            | 0 => simpa using (Bool.not_eq_true (succ k)).mp hs
            | i + 1 =>
              have := h2 i (by omega)
              have hidx : k + 1 + i = k + (i + 1) := by ring
              rw [hidx] at this
              exact this
          · rintro ⟨h1, h2⟩
            have hj : j < (pollScheduleAux interval deadline succ fuel (t + interval) (k + 1)).length := by
              refine hiff.mpr ⟨h1, ?_⟩
              intro i hi
              have := h2 (i + 1) (by omega)
              have hidx : k + (i + 1) = k + 1 + i := by ring
              rw [hidx] at this
              exact this
            omega
    · have hl : pollScheduleAux interval deadline succ (fuel + 1) t k = [] := by
        simp [pollScheduleAux, hd]
      rw [hl]
      simp only [List.length_nil]
      constructor
      · omega
      · rintro ⟨h1, -⟩
        have h2 : interval ≤ (j + 1) * interval := Nat.le_mul_of_pos_left interval (by omega)
        omega

/-- C2: the evaluation cadence of the polling loops. With a positive tick
interval, the i-th predicate evaluation of a polling-loop invocation happens
at instant `(i + 1) * interval` from loop entry: the first only after one
full cadence interval has elapsed, never immediately (every evaluation
instant is positive), each later one exactly one constant interval after the
previous, with no backoff; and evaluation `j` occurs precisely when its tick
fires strictly before the deadline and no earlier evaluation succeeded —
one evaluation per tick until success or deadline, whichever comes first. -/
theorem polling_cadence_fixed_interval (interval deadline : Nat) (succ : Nat → Bool)
    (hpos : 0 < interval) :
    (∀ (i : Nat) (h : i < (pollSchedule interval deadline succ).length),
       (pollSchedule interval deadline succ).get ⟨i, h⟩ = (i + 1) * interval) ∧
    (∀ x ∈ pollSchedule interval deadline succ, 0 < x ∧ interval ≤ x ∧ x < deadline) ∧
    (∀ j : Nat, j < (pollSchedule interval deadline succ).length ↔
       ((j + 1) * interval < deadline ∧ ∀ i < j, succ i = false)) := by
  refine ⟨?_, ?_, ?_⟩
  · intro i h
    have h2 : (pollSchedule interval deadline succ)[i]? = some (0 + (i + 1) * interval) :=
      pollScheduleAux_getElem interval deadline succ deadline 0 0 i h
    rw [List.getElem?_eq_getElem h] at h2
    simp only [Option.some.injEq, Nat.zero_add] at h2
    rw [List.get_eq_getElem]
    exact h2
  · intro x hx
    have := pollScheduleAux_mem interval deadline succ deadline 0 0 x hx
    omega
  · intro j
    have hfuel : deadline ≤ 0 + deadline * interval := by
      have : deadline * 1 ≤ deadline * interval := Nat.mul_le_mul_left deadline hpos
      omega
    have := pollScheduleAux_length_iff interval deadline succ deadline 0 0 hfuel j
    simpa using this

/-- C2 witness: a one-second cadence with a five-second deadline and a
predicate succeeding at its third evaluation: evaluations at instants 1, 2
and 3, none at instant 0, one per tick up to the success. -/
theorem polling_cadence_fixed_interval_witness :
    (∀ (i : Nat) (h : i < (pollSchedule 1 5 (fun k => k == 2)).length),
       (pollSchedule 1 5 (fun k => k == 2)).get ⟨i, h⟩ = (i + 1) * 1) ∧
    (∀ x ∈ pollSchedule 1 5 (fun k => k == 2), 0 < x ∧ 1 ≤ x ∧ x < 5) ∧
    (∀ j : Nat, j < (pollSchedule 1 5 (fun k => k == 2)).length ↔
       ((j + 1) * 1 < 5 ∧ ∀ i < j, (fun k => k == 2) i = false)) :=
  polling_cadence_fixed_interval 1 5 (fun k => k == 2) (by decide)

theorem goSliceFmt_contains_head (c : String) (args : List String) :
    strContains (goSliceFmt (c :: args)) c := by
  match args with
  | [] =>
    exact strContains_appendRight "]" (strContains_appendLeft "[" (strContains_self c))
  | y :: ys =>
    exact strContains_appendRight "]" (strContains_appendLeft "["
      (strContains_appendRight (goSliceElems (y :: ys))
        (strContains_appendRight " " (strContains_self c))))

/-- C3: for every command run through the command runner with any
environment, program and arguments: when the process outcome carries an
error (non-zero exit or exceeded deadline, `cause`), `envExec` returns a
non-nil error whose message contains the program name, the rendered
argument list, the raw cause and the captured combined output verbatim —
alongside the output itself; when the process succeeds, it returns the
combined output with a nil error. -/
theorem envExec_error_preserves_command_and_output (command : String)
    (args : List String) (out cause : String) :
    (∃ msg, envExec command args ⟨out, some cause⟩ = (out, some msg) ∧
        strContains msg command ∧
        strContains msg (goSliceFmt (command :: args)) ∧
        strContains msg cause ∧
        strContains msg out) ∧
    envExec command args ⟨out, none⟩ = (out, none) := by
  refine ⟨⟨"error running " ++ goSliceFmt (command :: args) ++ ": " ++ cause
            ++ "\nOutput:\n" ++ out, rfl, ?_, ?_, ?_, ?_⟩, rfl⟩
  · exact strContains_trans
      (strContains_appendRight out (strContains_appendRight "\nOutput:\n"
        (strContains_appendRight cause (strContains_appendRight ": "
          (strContains_appendLeft "error running "
            (strContains_self (goSliceFmt (command :: args))))))))
      (goSliceFmt_contains_head command args)
  · exact strContains_appendRight out (strContains_appendRight "\nOutput:\n"
      (strContains_appendRight cause (strContains_appendRight ": "
        (strContains_appendLeft "error running "
          (strContains_self (goSliceFmt (command :: args)))))))
  · exact strContains_appendRight out (strContains_appendRight "\nOutput:\n"
      (strContains_appendLeft ("error running " ++ goSliceFmt (command :: args) ++ ": ")
        (strContains_self cause)))
  · exact strContains_appendLeft
      ("error running " ++ goSliceFmt (command :: args) ++ ": " ++ cause ++ "\nOutput:\n")
      (strContains_self out)

theorem waitForSyncAux_ok_iff (headRev : String) (revlistAt : Nat → String × Option String) :
    ∀ (fuel k0 : Nat),
      (waitForSyncAux headRev revlistAt fuel k0 = Except.ok true ↔
        ∃ j, j < fuel ∧ syncRevAt revlistAt (k0 + j) = headRev) := by
  intro fuel
  induction fuel with
  | zero =>
    intro k0
    constructor
    · intro h
      simp [waitForSyncAux] at h
    · rintro ⟨j, hj, -⟩
      omega
  | succ fuel ih =>
    intro k0
    by_cases he : syncRevAt revlistAt k0 = headRev
    · simp only [waitForSyncAux, if_pos he]
      constructor
      · intro _
        exact ⟨0, by omega, by simpa using he⟩
      · intro _
        trivial
    · simp only [waitForSyncAux, if_neg he]
      rw [ih (k0 + 1)]
      constructor
      · rintro ⟨j, hj, hsync⟩
        refine ⟨j + 1, by omega, ?_⟩
        have hidx : k0 + 1 + j = k0 + (j + 1) := by ring
        rwa [hidx] at hsync
      · rintro ⟨j, hj, hsync⟩
        match j, hsync with
        | 0, hsync => exact absurd (by simpa using hsync) he
        | j + 1, hsync =>
          refine ⟨j, by omega, ?_⟩
          have hidx : k0 + (j + 1) = k0 + 1 + j := by ring
          rwa [hidx] at hsync

theorem waitForSyncAux_cases (headRev : String) (revlistAt : Nat → String × Option String) :
    ∀ (fuel k0 : Nat),
      waitForSyncAux headRev revlistAt fuel k0 = Except.ok true ∨
      waitForSyncAux headRev revlistAt fuel k0 =
        Except.error ("Failed to sync to revision " ++ headRev) := by
  intro fuel
  induction fuel with
  | zero => intro k0; exact Or.inr rfl
  | succ fuel ih =>
    intro k0
    by_cases he : syncRevAt revlistAt k0 = headRev
    · exact Or.inl (by simp [waitForSyncAux, he])
    · simpa [waitForSyncAux, he] using ih (k0 + 1)

/-- C4: the ticker-based `waitForSync(ctx, targetRevSource)` returns success
exactly when some poll tick before the deadline, after that tick's tag
fetch, observes that the commit the `flux-sync` marker resolves to equals
the commit the target ref resolved to; and while every tick's observation
differs from it, the loop keeps polling until the deadline, ending in the
fatal sync-failure report. -/
theorem waitForSync_transition (headRev : String)
    (revlistAt : Nat → String × Option String) (ticks : Nat) :
    (waitForSync headRev revlistAt ticks = Except.ok true ↔
       ∃ k, 1 ≤ k ∧ k ≤ ticks ∧ syncRevAt revlistAt k = headRev) ∧
    ((∀ k, 1 ≤ k → k ≤ ticks → syncRevAt revlistAt k ≠ headRev) →
       waitForSync headRev revlistAt ticks =
         Except.error ("Failed to sync to revision " ++ headRev)) := by
  have hiff := waitForSyncAux_ok_iff headRev revlistAt ticks 1
  have hshift : (∃ j, j < ticks ∧ syncRevAt revlistAt (1 + j) = headRev) ↔
      (∃ k, 1 ≤ k ∧ k ≤ ticks ∧ syncRevAt revlistAt k = headRev) := by
    constructor
    · rintro ⟨j, hj, hs⟩
      exact ⟨1 + j, by omega, by omega, hs⟩
    · rintro ⟨k, hk1, hk2, hs⟩
      refine ⟨k - 1, by omega, ?_⟩
      have hidx : 1 + (k - 1) = k := by omega
      rwa [hidx]
  constructor
  · exact hiff.trans hshift
  · intro hall
    rcases waitForSyncAux_cases headRev revlistAt ticks 1 with hok | herr
    · exfalso
      obtain ⟨k, hk1, hk2, hs⟩ := hshift.mp (hiff.mp hok)
      exact hall k hk1 hk2 hs
    · exact herr

/-- C4 witness: against a remote whose marker reaches the target revision at
tick 2 of 3, the characterization holds concretely (so in particular the
loop reports success). -/
theorem waitForSync_transition_witness :
    (waitForSync "abc123" (fun k => (if k == 2 then "abc123" else "def456", none)) 3 =
        Except.ok true ↔
       ∃ k, 1 ≤ k ∧ k ≤ 3 ∧
         syncRevAt (fun k => (if k == 2 then "abc123" else "def456", none)) k = "abc123") ∧
    ((∀ k, 1 ≤ k → k ≤ 3 →
         syncRevAt (fun k => (if k == 2 then "abc123" else "def456", none)) k ≠ "abc123") →
       waitForSync "abc123" (fun k => (if k == 2 then "abc123" else "def456", none)) 3 =
         Except.error ("Failed to sync to revision " ++ "abc123")) :=
  waitForSync_transition "abc123" (fun k => (if k == 2 then "abc123" else "def456", none)) 3

theorem getLastOfMapRange {α : Type} (f : Nat → α) (n : Nat) (h : 1 ≤ n) :
    ((List.range n).map f).getLast? = some (f (n - 1)) := by
  match n, h with
  | m + 1, _ =>
    have hr : List.range (m + 1) = List.range m ++ [m] := by
      simpa using List.range_succ m
    rw [hr, List.map_append]
    simp [List.getLast?_concat]

/-- C5 counterexample: with the target ref at `abc123` and the sync marker
stuck at `def456` for the entire deadline (two ticks), the ticker-based
`waitForSync` cited by the claim (flux_test.go lines 349–365) fails with
`Failed to sync to revision abc123`: the report names only the target
revision and does not reference the last observed marker value `def456`. -/
theorem waitForSync_timeout_omits_marker :
    waitForSync "abc123" (fun _ => ("def456", none)) 2 =
      Except.error "Failed to sync to revision abc123" ∧
    ¬ strContains "Failed to sync to revision abc123" "def456" := by
  constructor
  · rfl
  · show ¬ ("def456".data <:+: ("Failed to sync to revision abc123").data)
    decide

/-- C5 (amended): for the `until`-based `waitForSync` (flux_test.go lines
653–668), a convergence poll that times out while the sync marker never
matches the target ref reports the last observed, non-matching marker
value: the error contains the marker revision observed at the final tick,
both as the `%q`-quoted token of the predicate's message and hence verbatim
— not merely the target revision or a generic timeout string. (The
ticker-based variants at flux_test.go lines 349–365 and part_004 lines
214–233 instead report only the target revision.) -/
theorem waitForSyncUntil_reports_last_marker (targetRevAt markerRevAt : Nat → String)
    (ticks : Nat) (hne : 1 ≤ ticks)
    (hdiv : ∀ k, 1 ≤ k → k ≤ ticks → markerRevAt k ≠ targetRevAt k) :
    ∃ msg, waitForSyncUntil targetRevAt markerRevAt ticks = some msg ∧
      strContains msg (goQuote (markerRevAt ticks)) ∧
      strContains msg (markerRevAt ticks) := by
  have hm : waitForSyncPred targetRevAt markerRevAt ticks =
      some ("sync tag " ++ goQuote fluxSyncTag ++ " points at "
        ++ goQuote (markerRevAt ticks) ++ " instead of target " ++ targetRevAt ticks) := by
    simp only [waitForSyncPred, if_neg (hdiv ticks hne (le_refl ticks))]
  have hlast : ((List.range ticks).map
      (fun j => waitForSyncPred targetRevAt markerRevAt (j + 1))).getLast? =
      some (waitForSyncPred targetRevAt markerRevAt ticks) := by
    rw [getLastOfMapRange (fun j => waitForSyncPred targetRevAt markerRevAt (j + 1)) ticks hne]
    congr 2
    omega
  have hall : ∀ r ∈ (List.range ticks).map
      (fun j => waitForSyncPred targetRevAt markerRevAt (j + 1)), r ≠ none := by
    intro r hr
    rw [List.mem_map] at hr
    obtain ⟨j, hj, hrj⟩ := hr
    rw [List.mem_range] at hj
    rw [← hrj]
    simp [waitForSyncPred, if_neg (hdiv (j + 1) (by omega) (by omega))]
  have hrun := untilLoop_allFail
      ("sync tag " ++ goQuote fluxSyncTag ++ " points at "
        ++ goQuote (markerRevAt ticks) ++ " instead of target " ++ targetRevAt ticks)
      ((List.range ticks).map (fun j => waitForSyncPred targetRevAt markerRevAt (j + 1)))
      none (by rw [hlast, hm]) hall
  refine ⟨_, hrun, ?_, ?_⟩
  · exact strContains_appendLeft "timed out, last error: "
      (strContains_appendRight (targetRevAt ticks)
        (strContains_appendRight " instead of target "
          (strContains_appendLeft ("sync tag " ++ goQuote fluxSyncTag ++ " points at ")
            (strContains_self (goQuote (markerRevAt ticks))))))
  · refine strContains_trans ?_
      (strContains_appendRight "\"" (strContains_appendLeft "\""
        (strContains_self (markerRevAt ticks))))
    exact strContains_appendLeft "timed out, last error: "
      (strContains_appendRight (targetRevAt ticks)
        (strContains_appendRight " instead of target "
          (strContains_appendLeft ("sync tag " ++ goQuote fluxSyncTag ++ " points at ")
            (strContains_self (goQuote (markerRevAt ticks))))))

/-- C5 witness: target `abc123`, marker stuck at `def456` for a two-tick
deadline — the reported error references `def456`. -/
theorem waitForSyncUntil_reports_last_marker_witness :
    ∃ msg, waitForSyncUntil (fun _ => "abc123") (fun _ => "def456") 2 = some msg ∧
      strContains msg (goQuote "def456") ∧
      strContains msg "def456" :=
  waitForSyncUntil_reports_last_marker (fun _ => "abc123") (fun _ => "def456") 2
    (by omega) (fun k h1 h2 => by show ("def456" : String) ≠ "abc123"; decide)

/-- C6: deleting a resource that does not exist never returns an error to
the caller. For the Release-Manager delete (`helm delete --purge` through
`helmIgnoreErr`) and the Orchestrator-CLI delete (`kubectl delete` through
`kubectlIgnoreErrs`): a first delete whose command succeeds returns its
output; a second delete in a row, whose underlying command fails because
the resource no longer exists, still returns a plain string (the empty
string) — the error is swallowed, never surfaced, so to the caller absence
is as error-free as successful deletion — whereas the or-die variant on the
very same failing outcome would abort. -/
theorem delete_swallows_not_found (s : Setup) (exec1 exec2 : List String → ExecOutcome)
    (rel ns : String) (args : List String) (notFound : String)
    (h1 : (exec1 (s.helmSubCmd "delete" ["--purge", rel])).cause = none)
    (h2 : (exec2 (s.helmSubCmd "delete" ["--purge", rel])).cause = some notFound)
    (hk : (exec2 ("kubectl" :: s.kubectlSubCmd ns "delete" args)).cause = some notFound) :
    s.helmIgnoreErr exec1 "delete" ["--purge", rel] =
      (exec1 (s.helmSubCmd "delete" ["--purge", rel])).output ∧
    s.helmIgnoreErr exec2 "delete" ["--purge", rel] = "" ∧
    s.kubectlIgnoreErrs exec2 ns "delete" args = "" ∧
    (∀ v, s.helmOrDie exec2 "delete" ["--purge", rel] ≠ Except.ok v) := by
  refine ⟨?_, ?_, ?_, ?_⟩
  · simp [Setup.helmIgnoreErr, Setup.helm, envExec, h1, ignoreErr]
  · simp [Setup.helmIgnoreErr, Setup.helm, envExec, h2, ignoreErr]
  · simp [Setup.kubectlIgnoreErrs, Setup.kubectl, envExec, hk, ignoreErr]
  · intro v h
    simp [Setup.helmOrDie, Setup.helm, envExec, h2, strOrDie] at h

/-- C6 witness: a concrete setup deleting release `cd` twice in a row — the
first command succeeds, the second fails with a not-found error — and a
kubectl delete of an absent secret: no call surfaces an error. -/
theorem delete_swallows_not_found_witness :
    (Setup.mk "minikube" "/tmp/fluxtest" "192.168.99.100").helmIgnoreErr
        (fun _ => ⟨"release \"cd\" deleted", none⟩) "delete" ["--purge", "cd"] =
      ((fun (_ : List String) => (⟨"release \"cd\" deleted", none⟩ : ExecOutcome))
        ((Setup.mk "minikube" "/tmp/fluxtest" "192.168.99.100").helmSubCmd
          "delete" ["--purge", "cd"])).output ∧
    (Setup.mk "minikube" "/tmp/fluxtest" "192.168.99.100").helmIgnoreErr
        (fun _ => ⟨"Error: release: \"cd\" not found", some "exit status 1"⟩)
        "delete" ["--purge", "cd"] = "" ∧
    (Setup.mk "minikube" "/tmp/fluxtest" "192.168.99.100").kubectlIgnoreErrs
        (fun _ => ⟨"Error: release: \"cd\" not found", some "exit status 1"⟩)
        "flux" "delete" ["secret", "flux-git-deploy"] = "" ∧
    (∀ v, (Setup.mk "minikube" "/tmp/fluxtest" "192.168.99.100").helmOrDie
        (fun _ => ⟨"Error: release: \"cd\" not found", some "exit status 1"⟩)
        "delete" ["--purge", "cd"] ≠ Except.ok v) :=
  delete_swallows_not_found (Setup.mk "minikube" "/tmp/fluxtest" "192.168.99.100")
    (fun _ => ⟨"release \"cd\" deleted", none⟩)
    (fun _ => ⟨"Error: release: \"cd\" not found", some "exit status 1"⟩)
    "cd" "flux" ["secret", "flux-git-deploy"] "exit status 1" rfl rfl rfl

/-- C7 counterexample: a failed command's best-effort captured output is not
passed through by `ignoreErr`; it returns the empty string instead of the
output. -/
theorem ignoreErr_drops_output :
    ignoreErr "some captured output" (some "exit status 1") = "" ∧
    ignoreErr "some captured output" (some "exit status 1") ≠ "some captured output" := by
  constructor
  · rfl
  · decide

/-- C7 (amended): when the underlying command fails, the ignoreErrors
variant of the command runner swallows the error and returns the empty
string, discarding the captured output; the (best-effort) output is
returned only when the command succeeded. -/
theorem ignoreErr_swallows_failure (out e : String) :
    ignoreErr out (some e) = "" ∧ ignoreErr out none = out :=
  ⟨rfl, rfl⟩

/-- C8: every command-runner invocation logs the full command line before
the command executes, to the caller-supplied sink: the first event of the
call is the `running <argv>` log line, sent to the current test's logger
exactly when a test handle is supplied and to the process logger otherwise
(setup-time calls pass no handle); the execution event comes only after it,
and the call's result is untouched by the logging. The sink is determined
by the per-call parameter `t` alone. -/
theorem envExec_logs_before_exec (t : Option TestHandle) (env : List String)
    (command : String) (args : List String) (res : ExecOutcome) :
    ∃ sink,
      (envExecWithLog t env command args res).1.head? =
        some (RunnerEvent.log sink ("running " ++ goSliceFmt (command :: args))) ∧
      (sink = LogSink.testLogger ↔ t.isSome = true) ∧
      (envExecWithLog t env command args res).1[1]? =
        some (RunnerEvent.exec (command :: args)) ∧
      (envExecWithLog t env command args res).2 = envExec command args res := by
  refine ⟨if t.isSome then LogSink.testLogger else LogSink.processLogger, rfl, ?_, rfl, rfl⟩
  by_cases ht : t.isSome
  · simp [ht]
  · simp [ht]

/-- C8 witness: an in-test invocation (handle supplied) logs to the test
logger, first, with the full command line. -/
theorem envExec_logs_before_exec_witness :
    ∃ sink,
      (envExecWithLog (some ⟨"TestSync"⟩) [] "kubectl" ["version"] ⟨"ok", none⟩).1.head? =
        some (RunnerEvent.log sink ("running " ++ goSliceFmt ("kubectl" :: ["version"]))) ∧
      (sink = LogSink.testLogger ↔ (some (TestHandle.mk "TestSync")).isSome = true) ∧
      (envExecWithLog (some ⟨"TestSync"⟩) [] "kubectl" ["version"] ⟨"ok", none⟩).1[1]? =
        some (RunnerEvent.exec ("kubectl" :: ["version"])) ∧
      (envExecWithLog (some ⟨"TestSync"⟩) [] "kubectl" ["version"] ⟨"ok", none⟩).2 =
        envExec "kubectl" ["version"] ⟨"ok", none⟩ :=
  envExec_logs_before_exec (some ⟨"TestSync"⟩) [] "kubectl" ["version"] ⟨"ok", none⟩

/-- C9: `nodeIP` is idempotent and performs no internal caching: each call's
event trace is exactly one fresh execution of `minikube --profile <p> ip`
(and two consecutive calls execute it twice — nothing is cached inside);
two consecutive calls against unchanged external state return the same
value; and a successful call returns precisely the whitespace-trimmed
output of its own fresh execution. -/
theorem nodeIP_fresh_exec_and_trim (m : minikube) (exec : List String → ExecOutcome)
    (hok : (exec m.mt.ipCmd).cause = none) :
    (m.nodeIP exec).2 = [RunnerEvent.exec m.mt.ipCmd] ∧
    (m.nodeIPTwice exec).2 = [RunnerEvent.exec m.mt.ipCmd, RunnerEvent.exec m.mt.ipCmd] ∧
    (m.nodeIPTwice exec).1.1 = (m.nodeIPTwice exec).1.2 ∧
    (m.nodeIP exec).1 = Except.ok (goTrimSpace (exec m.mt.ipCmd).output) := by
  refine ⟨rfl, rfl, rfl, ?_⟩
  simp [minikube.nodeIP, cliMust, envExec, hok, strOrDie, Except.map]

/-- C9 witness: a concrete cluster whose `minikube ip` prints an address
with a trailing newline — each of two calls runs the command afresh and
both return the trimmed address. -/
theorem nodeIP_fresh_exec_and_trim_witness :
    ((minikube.mk ⟨"minikube"⟩).nodeIP (fun _ => ⟨"192.168.99.100\n", none⟩)).2 =
      [RunnerEvent.exec (minikube.mk ⟨"minikube"⟩).mt.ipCmd] ∧
    ((minikube.mk ⟨"minikube"⟩).nodeIPTwice (fun _ => ⟨"192.168.99.100\n", none⟩)).2 =
      [RunnerEvent.exec (minikube.mk ⟨"minikube"⟩).mt.ipCmd,
       RunnerEvent.exec (minikube.mk ⟨"minikube"⟩).mt.ipCmd] ∧
    ((minikube.mk ⟨"minikube"⟩).nodeIPTwice (fun _ => ⟨"192.168.99.100\n", none⟩)).1.1 =
      ((minikube.mk ⟨"minikube"⟩).nodeIPTwice (fun _ => ⟨"192.168.99.100\n", none⟩)).1.2 ∧
    ((minikube.mk ⟨"minikube"⟩).nodeIP (fun _ => ⟨"192.168.99.100\n", none⟩)).1 =
      Except.ok (goTrimSpace ((fun (_ : List String) =>
        (⟨"192.168.99.100\n", none⟩ : ExecOutcome)) (minikube.mk ⟨"minikube"⟩).mt.ipCmd).output) :=
  nodeIP_fresh_exec_and_trim (minikube.mk ⟨"minikube"⟩)
    (fun _ => ⟨"192.168.99.100\n", none⟩) rfl

/-- C10: constructing the cluster capability succeeds exactly when the
`minikube version` command succeeds and its trimmed output is exactly
`minikube version: v0.28.1`; for a successful command with any other
output, `mustNewMinikube` aborts fatally with a message quoting the
offending version string — so no harness is ever built against an
unsupported minikube version. -/
theorem mustNewMinikube_version_gate (profile : String)
    (exec : List String → ExecOutcome) :
    ((∃ m, mustNewMinikube profile exec = Except.ok m) ↔
      ((exec (minikubeTool.mk profile).versionCmd).cause = none ∧
       goTrimSpace (exec (minikubeTool.mk profile).versionCmd).output =
         "minikube version: " ++ minikubeVersion)) ∧
    (∀ out, exec (minikubeTool.mk profile).versionCmd = ⟨out, none⟩ →
       goTrimSpace out ≠ "minikube version: " ++ minikubeVersion →
       mustNewMinikube profile exec =
         Except.error ("`minikube version` returned " ++ goQuote (goTrimSpace out)
           ++ ", but these tests only support version " ++ minikubeVersion)) := by
  cases hx : exec (minikubeTool.mk profile).versionCmd with
  | mk o c =>
    cases c with
    | none =>
      have h1 : mustNewMinikube profile exec =
          (if goTrimSpace o = "minikube version: " ++ minikubeVersion
           then Except.ok ⟨⟨profile⟩⟩
           else Except.error ("`minikube version` returned " ++ goQuote (goTrimSpace o)
               ++ ", but these tests only support version " ++ minikubeVersion)) := by
        simp [mustNewMinikube, minikube.version, cliMust, envExec, hx, strOrDie]
      by_cases hv : goTrimSpace o = "minikube version: " ++ minikubeVersion
      · rw [h1, if_pos hv]
        constructor
        · constructor
          · intro _
            exact ⟨rfl, hv⟩
          · intro _
            exact ⟨_, rfl⟩
        · intro out hout hne
          simp only [ExecOutcome.mk.injEq, and_true] at hout
          rw [← hout] at hne
          exact absurd hv hne
      · rw [h1, if_neg hv]
        constructor
        · constructor
          · rintro ⟨m, hm⟩
            exact absurd hm (by simp)
          · rintro ⟨-, h2⟩
            exact absurd h2 hv
        · intro out hout hne
          simp only [ExecOutcome.mk.injEq, and_true] at hout
          rw [hout]
      | some e =>
        have h1 : ∀ v, mustNewMinikube profile exec ≠ Except.ok v := by
          intro v h
          simp [mustNewMinikube, minikube.version, cliMust, envExec, hx, strOrDie] at h
        constructor
        · constructor
          · rintro ⟨m, hm⟩
            exact absurd hm (h1 m)
          · rintro ⟨h2, -⟩
            simp at h2
        · intro out hout hne
          simp at hout

/-- C10 witness: on the supported tool output (with its trailing newline)
construction succeeds; the characterization and fatal-abort clause hold at
that concrete input. -/
theorem mustNewMinikube_version_gate_witness :
    ((∃ m, mustNewMinikube "minikube"
        (fun _ => ⟨"minikube version: v0.28.1\n", none⟩) = Except.ok m) ↔
      (((fun (_ : List String) => (⟨"minikube version: v0.28.1\n", none⟩ : ExecOutcome))
          (minikubeTool.mk "minikube").versionCmd).cause = none ∧
       goTrimSpace ((fun (_ : List String) =>
          (⟨"minikube version: v0.28.1\n", none⟩ : ExecOutcome))
          (minikubeTool.mk "minikube").versionCmd).output =
         "minikube version: " ++ minikubeVersion)) ∧
    (∀ out, (fun (_ : List String) =>
          (⟨"minikube version: v0.28.1\n", none⟩ : ExecOutcome))
          (minikubeTool.mk "minikube").versionCmd = ⟨out, none⟩ →
       goTrimSpace out ≠ "minikube version: " ++ minikubeVersion →
       mustNewMinikube "minikube" (fun _ => ⟨"minikube version: v0.28.1\n", none⟩) =
         Except.error ("`minikube version` returned " ++ goQuote (goTrimSpace out)
           ++ ", but these tests only support version " ++ minikubeVersion)) :=
  mustNewMinikube_version_gate "minikube" (fun _ => ⟨"minikube version: v0.28.1\n", none⟩)

end FluxTester
